import Mathlib

/-!
Verification of the email ingestion, normalization, filtering and
conversation-reduction pipeline of `end_to_end_vc_research.py`.

The Python code is shallowly embedded: each helper function of the source is
translated to a Lean definition over explicit data.  Outcomes of Python
standard-library calls that the source wraps in try/except (header decoding,
address parsing, date parsing, MIME payload access) are carried as `Option`
fields of the message model: `some v` means the call returned `v`, `none`
means it raised (or, for payload access, returned `None`, which makes the
subsequent `.decode` raise).  Fallible repository code is modelled with
`Except`.  Strings are compared and transformed at the code-point level,
matching Python `str` semantics on the ASCII range used by the configuration.
-/

/-- Python `str.lower` on one character, modelled on the ASCII range
(all configuration strings and all concrete inputs below are ASCII). -/
def pyLowerChar (c : Char) : Char :=
  if 'A' ≤ c ∧ c ≤ 'Z' then Char.ofNat (c.toNat + 32) else c

/-- Python `str.lower`, modelled on the ASCII range. -/
def pyLower (s : String) : String :=
  String.mk (s.data.map pyLowerChar)

/-- Does `pat` occur at the start of `hay`?  (Helper for substring search.) -/
def startsWithChars : List Char → List Char → Bool
  | [], _ => true
  | _ :: _, [] => false
  | p :: ps, h :: hs => p = h && startsWithChars ps hs

/-- Does `pat` occur anywhere in `hay`?  (Helper for substring search.) -/
def subOccurs : List Char → List Char → Bool
  | [], _ => true
  | _ :: _, [] => false
  | p :: ps, h :: hs => startsWithChars (p :: ps) (h :: hs) || subOccurs (p :: ps) hs

/-- Python's `pat in hay` substring containment test on strings. -/
def strContains (hay pat : String) : Bool :=
  subOccurs pat.data hay.data

/-- Code-point lexicographic order on character lists: exactly the order
Python uses to compare `str` values (as in `sort(key=...)`). -/
def charListLe : List Char → List Char → Bool
  | [], _ => true
  | _ :: _, [] => false
  | a :: as, b :: bs =>
    if a.toNat < b.toNat then true
    else if b.toNat < a.toNat then false
    else charListLe as bs

/-- Python string `<=` (code-point lexicographic). -/
def pyStrLe (a b : String) : Bool :=
  charListLe a.data b.data

/-- Characters stripped by Python `str.strip()` (ASCII whitespace range). -/
def pyIsSpaceChar (c : Char) : Bool :=
  c = ' ' || c = '\t' || c = '\n' || c = '\r' || c.toNat = 11 || c.toNat = 12

/-- Python `str.strip()`. -/
def pyStrip (s : String) : String :=
  String.mk (((s.data.dropWhile pyIsSpaceChar).reverse.dropWhile pyIsSpaceChar).reverse)

/-- Split a character list at the first occurrence of `sep`:
`some (before, after)` if `sep` occurs, `none` otherwise. -/
def splitFirst (sep : Char) : List Char → Option (List Char × List Char)
  | [] => none
  | c :: rest =>
    if c = sep then some ([], rest)
    else (splitFirst sep rest).map (fun p => (c :: p.1, p.2))

/-- Python `s.split(sep, 1)`: a one-element list when `sep` is absent,
otherwise the part before the first `sep` and the whole rest after it. -/
def pySplit1 (sep : Char) (s : String) : List String :=
  match splitFirst sep s.data with
  | some p => [String.mk p.1, String.mk p.2]
  | none => [s]

/-!
## Data model

`PyDateTime` models a Python `datetime.datetime` value as returned by
`email.utils.parsedate_to_datetime` on an RFC-5322 `Date` header: second
precision (such headers carry no fractional seconds), with an optional UTC
offset in whole minutes.  The bound fields are the invariants that Python's
`datetime` constructor enforces on every constructed value (`MINYEAR = 1`,
`MAXYEAR = 9999`, field ranges, `|utcoffset| < 24h`).
-/

structure PyDateTime where
  year : Nat
  month : Nat
  day : Nat
  hour : Nat
  minute : Nat
  second : Nat
  tz : Option Int
  hYear : 1 ≤ year ∧ year ≤ 9999
  hMonth : 1 ≤ month ∧ month ≤ 12
  hDay : 1 ≤ day ∧ day ≤ 31
  hHour : hour ≤ 23
  hMinute : minute ≤ 59
  hSecond : second ≤ 59
  hTz : ∀ o, tz = some o → o.natAbs ≤ 1439

/-- Two-digit zero-padded decimal rendering (Python `%02d` for `n ≤ 99`). -/
def pad2 (n : Nat) : List Char :=
  [Nat.digitChar (n / 10), Nat.digitChar (n % 10)]

/-- Four-digit zero-padded decimal rendering (Python `%04d` for `n ≤ 9999`). -/
def pad4 (n : Nat) : List Char :=
  [Nat.digitChar (n / 1000), Nat.digitChar (n / 100 % 10),
   Nat.digitChar (n / 10 % 10), Nat.digitChar (n % 10)]

/-- The UTC-offset suffix of Python `datetime.isoformat()`: empty for a naive
datetime, otherwise a sign followed by `HH:MM` of the absolute offset. -/
def tzChars : Option Int → List Char
  | none => []
  | some o =>
    (if o < 0 then '-' else '+') :: (pad2 (o.natAbs / 60) ++ ':' :: pad2 (o.natAbs % 60))

/-- Python `datetime.isoformat()` for a second-precision datetime:
`YYYY-MM-DDTHH:MM:SS` with the optional offset suffix. -/
def isoformat (dt : PyDateTime) : String :=
  String.mk (pad4 dt.year ++ '-' :: pad2 dt.month ++ '-' :: pad2 dt.day ++
    'T' :: pad2 dt.hour ++ ':' :: pad2 dt.minute ++ ':' :: pad2 dt.second ++
    tzChars dt.tz)

/-- Checker for the optional timezone-offset tail of an ISO-8601 timestamp. -/
def validTzTail : List Char → Bool
  | [] => true
  | c :: h1 :: h2 :: ':' :: m1 :: m2 :: [] =>
    (c = '+' || c = '-') && h1.isDigit && h2.isDigit && m1.isDigit && m2.isDigit
  | _ => false

/-- Syntactic well-formedness of a second-precision ISO-8601 timestamp string:
`YYYY-MM-DDTHH:MM:SS` with digits in every position, optionally followed by a
sign and `HH:MM` offset.  This is the shape `datetime.isoformat()` emits for
the datetimes produced by `parsedate_to_datetime`. -/
def isValidISO8601 (s : String) : Bool :=
  match s.data with
  | y1 :: y2 :: y3 :: y4 :: '-' :: mo1 :: mo2 :: '-' :: d1 :: d2 ::
      'T' :: h1 :: h2 :: ':' :: mi1 :: mi2 :: ':' :: s1 :: s2 :: rest =>
    y1.isDigit && y2.isDigit && y3.isDigit && y4.isDigit &&
    mo1.isDigit && mo2.isDigit && d1.isDigit && d2.isDigit &&
    h1.isDigit && h2.isDigit && mi1.isDigit && mi2.isDigit &&
    s1.isDigit && s2.isDigit && validTzTail rest
  | _ => false

/-- One MIME part as `_get_body_text` observes it.  `contentDisposition` is
`str(part.get("Content-Disposition") or "")` before lower-casing, and
`contentType` is `str(part.get_content_type() or "")` before lower-casing.
`getContent` is the outcome of `part.get_content()` (`none` = the call
raised, e.g. `AttributeError` on a compat32 message).  `payloadDecoded` is
the outcome of `part.get_payload(decode=True).decode(errors="replace")`
(`none` = `get_payload` returned `None` or raised, making the chained
`.decode` raise). -/
structure MimePart where
  contentDisposition : String
  contentType : String
  getContent : Option String
  payloadDecoded : Option String
deriving DecidableEq

/-- The body of a raw message: `msg.is_multipart()` selects the branch of
`_get_body_text`; for a multipart message, the part list is the sequence
`msg.walk()` yields (the container itself first, then all sub-parts in
depth-first order). -/
inductive MsgBody where
  | single : MimePart → MsgBody
  | multi : List MimePart → MsgBody
deriving DecidableEq

/-- One raw mailbox record, together with the outcomes of the Python
standard-library calls the pipeline applies to it.
`labelVals` is the concatenation of `msg.get_all(h, [])` over the four label
header names checked by `is_in_spam_or_trash`.
`parseName`/`parseEmail` are the components of
`parseaddr(msg.get("From", ""))`.
`subjectHeader` is `msg.get("Subject", "")` and `subjectDecoded` the outcome
of `str(make_header(decode_header(subjectHeader)))` (`none` = it raised).
`dateHeader` is `msg.get("Date")` with `""` for an absent header (the code
tests it with `if not date_hdr`), and `parsedDate` the outcome of
`parsedate_to_datetime(dateHeader)` (`none` = it raised).
`toAddrs`/`ccAddrs` are the address components `getaddresses` extracts from
all `To`/`Cc` header occurrences. -/
structure RawMsg where
  labelVals : List String
  fromHeader : String
  parseName : String
  parseEmail : String
  subjectHeader : String
  subjectDecoded : Option String
  dateHeader : String
  parsedDate : Option PyDateTime
  toAddrs : List String
  ccAddrs : List String
  body : MsgBody

/-- The normalized row dictionary built in `parse_mbox_file`.  The source
keys the last two fields "to" and "cc"; `to` is reserved in Lean, so they
carry the spec's names `to_addresses` / `cc_addresses`. -/
structure Row where
  email : String
  subject : String
  date : String
  full_email_chain : String
  from_name : String
  sender_domain : String
  to_addresses : String
  cc_addresses : String
deriving DecidableEq

/-- The module-level filtering configuration of the script: `IGNORE_DOMAINS`,
`IGNORE_SENDERS`, `SUBJECT_PHRASE_IGNORE`, `SUBJECT_KEYWORDS_IGNORE` and the
computed recency cutoff `CUTOFF_UTC` (defined at lines 45-47 and never read
afterwards). -/
structure Config where
  ignoreDomains : List String
  ignoreSenders : List String
  subjectPhraseIgnore : String
  subjectKeywordsIgnore : List String
  cutoffUtc : PyDateTime

/-!
## Configuration constants (lines 45-47 and 81-94 of the source)
-/

/-- `IGNORE_DOMAINS` (a Python set; modelled as a list, membership only). -/
def IGNORE_DOMAINS : List String :=
  ["integrityokc.com", "rosenbaumrealtygroup.com", "coloradorpm.com"]

/-- `IGNORE_SENDERS`. -/
def IGNORE_SENDERS : List String :=
  ["support@integrityokc.com", "demo@kindredpm.ai", "kindredsnyder@gmail.com"]

/-- `SUBJECT_PHRASE_IGNORE`. -/
def SUBJECT_PHRASE_IGNORE : String := "kindred just flagged"

/-- `SUBJECT_KEYWORDS_IGNORE`. -/
def SUBJECT_KEYWORDS_IGNORE : List String := ["maintenance", "wo_id"]

/-- `CUTOFF_UTC`: `datetime(2025, 9, 19, 0, 0, 0, tzinfo=ZoneInfo("Asia/Seoul"))`
converted to UTC.  Asia/Seoul is UTC+9 with no daylight saving, so this is
2025-09-18 15:00:00+00:00. -/
def CUTOFF_UTC : PyDateTime where
  year := 2025
  month := 9
  day := 18
  hour := 15
  minute := 0
  second := 0
  tz := some 0
  hYear := by decide
  hMonth := by decide
  hDay := by decide
  hHour := by decide
  hMinute := by decide
  hSecond := by decide
  hTz := by intro o h; cases h; decide

/-- The configuration the script ships with. -/
def shippedConfig : Config where
  ignoreDomains := IGNORE_DOMAINS
  ignoreSenders := IGNORE_SENDERS
  subjectPhraseIgnore := SUBJECT_PHRASE_IGNORE
  subjectKeywordsIgnore := SUBJECT_KEYWORDS_IGNORE
  cutoffUtc := CUTOFF_UTC

/-!
## Helper functions for email parsing (lines 99-196 of the source)
-/

/-- Tag-removal state machine behind `html_to_text`.  The second argument is
`none` outside a candidate tag and `some buf` while scanning a candidate tag
whose chars between the opening angle bracket and the current position are
`buf` (reversed).  A candidate closed at `>` with a non-empty interior is
removed; an interior-less pair or an unclosed candidate is kept verbatim,
matching `re.sub(r"<[^>]+>", "", html)`. -/
def stripTagsGo : List Char → Option (List Char) → List Char
  | [], none => []
  | [], some buf => '<' :: buf.reverse
  | c :: rest, none =>
    if c = '<' then stripTagsGo rest (some []) else c :: stripTagsGo rest none
  | c :: rest, some buf =>
    if c = '>' then
      match buf with
      | [] => '<' :: '>' :: stripTagsGo rest none
      | _ :: _ => stripTagsGo rest none
    else stripTagsGo rest (some (c :: buf))

/-- `_html_to_text`: strip markup tags from HTML, keeping the character data.
Both tiers of the source (the `HTMLParser`-based extractor collecting
`handle_data` chunks, and the fallback `re.sub(r"<[^>]+>", "", html)` used
when `feed` raises) remove the angle-bracketed markup and keep the text
between tags; the embedding is that tag-removal pass.  Total: never fails. -/
def html_to_text (html : String) : String :=
  String.mk (stripTagsGo html.data none)

/-- `_decode_header`: empty input gives `""`; otherwise the decoded header if
the standard-library decode chain succeeded, and the raw value if it raised.
`decoded` is the outcome of `str(make_header(decode_header(value)))`. -/
def decode_header_fn (value : String) (decoded : Option String) : String :=
  if value = "" then ""
  else match decoded with
    | some s => s
    | none => value

/-- Python string `<=` as a decidable relation, for sorting. -/
def str_le (a b : String) : Prop := pyStrLe a b = true

instance : DecidableRel str_le :=
  fun a b => inferInstanceAs (Decidable (pyStrLe a b = true))

/-- `_extract_addresses`: de-duplicate the non-empty extracted addresses,
sort them (Python string order), and join with ", ". -/
def extract_addresses (addrs : List String) : String :=
  String.intercalate ", " (List.insertionSort str_le ((addrs.filter (· ≠ "")).dedup))

/-- `_extract_name_and_email` restricted to the email component:
`(email or "").lower()` applied to the `parseaddr` outcome. -/
def from_email (m : RawMsg) : String :=
  pyLower m.parseEmail

/-- `_extract_name_and_email` restricted to the name component:
`name or ""` applied to the `parseaddr` outcome (the identity on strings,
since `"" or ""` is `""`). -/
def from_name (m : RawMsg) : String :=
  m.parseName

/-- `_sender_domain`: `email.split("@", 1)[-1].lower() if "@" in email else ""`. -/
def sender_domain (email : String) : String :=
  if email.data.contains '@' then pyLower ((pySplit1 '@' email).getLastD "") else ""

/-- The spec's wording of the same derivation: "the substring of
`sender_email` after the first `@`, lower-cased; empty if no `@` present".
Stated independently of `sender_domain` to compare the two. -/
def sender_domain_spec (email : String) : String :=
  if email.data.contains '@' then
    pyLower (String.mk ((email.data.dropWhile (fun c => c ≠ '@')).drop 1))
  else ""

/-- `_message_datetime`: `""` when the `Date` header is absent or empty
(`if not date_hdr`), otherwise `parsedate_to_datetime(...).isoformat()`,
with `""` on any parse failure.  Total: never fails. -/
def message_datetime (m : RawMsg) : String :=
  if m.dateHeader = "" then ""
  else match m.parsedDate with
    | some dt => isoformat dt
    | none => ""

/-- The decoded subject as `parse_mbox_file` computes it:
`_decode_header(msg.get("Subject", ""))`. -/
def decoded_subject (m : RawMsg) : String :=
  decode_header_fn m.subjectHeader m.subjectDecoded

/-- The chunks one MIME part contributes inside the multipart branch of
`_get_body_text`.  `Except.error` marks the one unguarded path of the
source: for a `text/html` part whose `get_content()` raises, the fallback
`part.get_payload(decode=True).decode(errors="replace")` stands outside any
try/except, so its failure propagates out of `_get_body_text`. -/
def part_chunks (p : MimePart) : Except Unit (List String) :=
  let cdisp := pyLower p.contentDisposition
  let ctype := pyLower p.contentType
  if strContains cdisp "attachment" then .ok []
  else if ctype = "text/plain" then
    match p.getContent with
    | some s => .ok [pyStrip s]
    | none =>
      match p.payloadDecoded with
      | some s => .ok [pyStrip s]
      | none => .ok []
  else if ctype = "text/html" then
    match p.getContent with
    | some h => .ok [pyStrip (html_to_text h)]
    | none =>
      match p.payloadDecoded with
      | some b => .ok [pyStrip (html_to_text b)]
      | none => .error ()
  else .ok []

/-- The `text_chunks` accumulation over `msg.walk()`: parts are processed in
order, and a raised exception aborts the traversal. -/
def walk_chunks : List MimePart → Except Unit (List String)
  | [] => .ok []
  | p :: ps =>
    match part_chunks p with
    | .error e => .error e
    | .ok cs => (walk_chunks ps).map (fun rest => cs ++ rest)

/-- `_get_body_text`: single-part messages read `get_content()` with the
doubly-guarded payload fallback (`pass` leaves the chunk list empty);
multipart messages accumulate `walk_chunks`; finally the non-empty chunks
are joined with a blank line. -/
def get_body_text (m : RawMsg) : Except Unit String :=
  match m.body with
  | .multi parts =>
    (walk_chunks parts).map
      (fun cs => String.intercalate "\n\n" (cs.filter (· ≠ "")))
  | .single p =>
    let cs :=
      match p.getContent with
      | some s => [pyStrip s]
      | none =>
        match p.payloadDecoded with
        | some s => [pyStrip s]
        | none => []
    .ok (String.intercalate "\n\n" (cs.filter (· ≠ "")))

/-- `subject_matches_ignores`, generalized over the configuration the way
the module constants parameterize it: lower-case the subject, then test the
phrase and each keyword for substring containment. -/
def subject_matches_ignores (cfg : Config) (subject : String) : Bool :=
  let s := pyLower subject
  if strContains s cfg.subjectPhraseIgnore then true
  else cfg.subjectKeywordsIgnore.any (fun w => strContains s w)

/-- `is_in_spam_or_trash`: some label/folder header value contains "spam" or
"trash" after lower-casing. -/
def is_in_spam_or_trash (m : RawMsg) : Bool :=
  m.labelVals.any (fun v => strContains (pyLower v) "spam" || strContains (pyLower v) "trash")

/-!
## Ingestion (`parse_mbox_file`, lines 211-251) and reduction (`main`,
lines 379-393)
-/

/-- The ignore-rule sequence of `parse_mbox_file` (lines 227-235): each
`continue` drops the message, in source order. -/
def keep_message (cfg : Config) (m : RawMsg) : Bool :=
  if is_in_spam_or_trash m then false
  else if cfg.ignoreDomains.contains (sender_domain (from_email m)) then false
  else if cfg.ignoreSenders.contains (from_email m) then false
  else if subject_matches_ignores cfg (decoded_subject m) then false
  else true

/-- The row dictionary appended for a surviving message (lines 239-249). -/
def mk_row (m : RawMsg) (body : String) : Row where
  email := from_email m
  subject := decoded_subject m
  date := message_datetime m
  full_email_chain := body
  from_name := from_name m
  sender_domain := sender_domain (from_email m)
  to_addresses := extract_addresses m.toAddrs
  cc_addresses := extract_addresses m.ccAddrs

/-- One iteration of the `parse_mbox_file` loop: `ok none` when an ignore
rule drops the message, `ok (some row)` when it survives, `error` when body
extraction raises. -/
def process_message (cfg : Config) (m : RawMsg) : Except Unit (Option Row) :=
  if keep_message cfg m then (get_body_text m).map (fun b => some (mk_row m b))
  else .ok none

/-- `parse_mbox_file` over the archive's message sequence: accumulate the
surviving rows in archive order; an exception raised while processing any
message aborts the whole parse. -/
def parse_mbox_file (cfg : Config) : List RawMsg → Except Unit (List Row)
  | [] => .ok []
  | m :: ms =>
    if keep_message cfg m then
      match get_body_text m with
      | .error e => .error e
      | .ok b => (parse_mbox_file cfg ms).map (fun rs => mk_row m b :: rs)
    else parse_mbox_file cfg ms

/-- "`a` sorts no later than `b`" for
`sort(key=lambda x: x.get('date', ''), reverse=True)`: the date of `a` is
at least the date of `b` in Python string order. -/
def date_ge (a b : Row) : Prop := pyStrLe b.date a.date = true

instance : DecidableRel date_ge :=
  fun a b => inferInstanceAs (Decidable (pyStrLe b.date a.date = true))

/-- `filtered_emails.sort(key=lambda x: x.get('date', ''), reverse=True)`:
a stable sort, newest date first.  CPython's `list.sort` is stable and with
`reverse=True` keeps equal-keyed elements in their original order; for the
total preorder `date_ge`, the stable sort result is unique, and
`insertionSort` computes it. -/
def sort_by_date (rows : List Row) : List Row :=
  List.insertionSort date_ge rows

/-- The dedup loop of `main` (lines 385-391): keep the first row whose
non-empty `sender_domain` was not seen yet. -/
def keep_first_per_domain : List Row → List String → List Row
  | [], _ => []
  | r :: rest, seen =>
    if r.sender_domain ≠ "" ∧ r.sender_domain ∉ seen then
      r :: keep_first_per_domain rest (r.sender_domain :: seen)
    else keep_first_per_domain rest seen

/-- The whole conversation-reduction step of `main` (lines 379-393). -/
def reduce_conversations (rows : List Row) : List Row :=
  keep_first_per_domain (sort_by_date rows) []

/-!
## Concrete inputs used to instantiate the theorems
-/

/-- A sample `parsedate_to_datetime` outcome: 2025-01-02 03:04:05 +00:00. -/
def dtSample : PyDateTime :=
  ⟨2025, 1, 2, 3, 4, 5, some 0,
    by decide, by decide, by decide, by decide, by decide, by decide,
    by intro o h; cases h; decide⟩

/-- The multipart container itself, as the first element `walk()` yields. -/
def partContainer : MimePart := ⟨"", "multipart/mixed", none, none⟩

/-- A `text/plain` part whose payload decodes to "Hello" (`get_content`
raises, as it does on every compat32 message). -/
def partPlainHello : MimePart := ⟨"", "text/plain", none, some "Hello"⟩

/-- An attachment part whose payload would decode to "SECRET". -/
def partAttachPdf : MimePart :=
  ⟨"attachment; filename=doc.pdf", "application/pdf", none, some "SECRET"⟩

/-- A `text/html` part for which both `get_content()` and
`get_payload(decode=True)` fail. -/
def partHtmlNoPayload : MimePart := ⟨"", "text/html", none, none⟩

/-- A `text/plain` part for which both `get_content()` and
`get_payload(decode=True)` fail. -/
def partPlainNoPayload : MimePart := ⟨"", "text/plain", none, none⟩

/-- A benign message: no spam label, unblocked sender, harmless subject,
a parsed date, and a multipart body with one text part and one attachment. -/
def msgBase : RawMsg :=
  { labelVals := ["Inbox"]
    fromHeader := "Pat Founder <Pat@Startup.example>"
    parseName := "Pat Founder"
    parseEmail := "Pat@Startup.example"
    subjectHeader := "Intro"
    subjectDecoded := some "Intro"
    dateHeader := "Thu, 02 Jan 2025 03:04:05 +0000"
    parsedDate := some dtSample
    toAddrs := ["phil@kindredpm.ai"]
    ccAddrs := []
    body := .multi [partContainer, partPlainHello, partAttachPdf] }

/-- A message carrying a "Spam" label value. -/
def msgSpam : RawMsg := { msgBase with labelVals := ["Spam"] }

/-- A message whose only non-container part is the doubly-failing
`text/html` part. -/
def msgHtmlBad : RawMsg :=
  { msgBase with body := .multi [partContainer, partHtmlNoPayload] }

/-- A message whose only non-container part is the doubly-failing
`text/plain` part. -/
def msgPlainBad : RawMsg :=
  { msgBase with body := .multi [partContainer, partPlainNoPayload] }

/-- A message whose From header yields no parseable address. -/
def msgNoFrom : RawMsg :=
  { msgBase with fromHeader := "", parseName := "", parseEmail := "" }

/-- A non-multipart message that is itself flagged as an attachment: its one
part carries `Content-Disposition: attachment` and a payload decoding to
"SECRET". -/
def msgSingleAttach : RawMsg := { msgBase with body := .single partAttachPdf }

/-- An older row of domain x.example. -/
def rowOld : Row :=
  ⟨"a@x.example", "old", "2025-01-01T00:00:00+00:00", "b1", "A", "x.example", "", ""⟩

/-- A newer row of the same domain x.example. -/
def rowNew : Row :=
  ⟨"b@x.example", "new", "2025-06-01T00:00:00+00:00", "b2", "B", "x.example", "", ""⟩

/-- A row with an empty sender domain. -/
def rowNoDomain : Row :=
  ⟨"", "none", "2025-03-01T00:00:00+00:00", "b3", "C", "", "", ""⟩

/-- A row list with a duplicated domain and an unkeyable row. -/
def rowsEx : List Row := [rowOld, rowNew, rowNoDomain]

/-- The shipped configuration with one extra entry in each blocklist set. -/
def configBigger : Config :=
  { shippedConfig with
    ignoreDomains := "blocked.example" :: shippedConfig.ignoreDomains
    ignoreSenders := "noreply@blocked.example" :: shippedConfig.ignoreSenders
    subjectKeywordsIgnore := "unsubscribe" :: shippedConfig.subjectKeywordsIgnore }

/-!
## Order properties of the Python string comparison
-/

theorem charListLe_refl (l : List Char) : charListLe l l = true := by
  induction l with
  | nil => rfl
  | cons c cs ih => simp [charListLe, ih]

theorem charListLe_total (a b : List Char) :
    charListLe a b = true ∨ charListLe b a = true := by
  induction a generalizing b with
  | nil => exact Or.inl rfl
  | cons x xs ih =>
    cases b with
    | nil => exact Or.inr rfl
    | cons y ys =>
      simp only [charListLe]
      rcases Nat.lt_trichotomy x.toNat y.toNat with h | h | h
      · left; simp [h]
      · have h1 : ¬ x.toNat < y.toNat := by omega
        have h2 : ¬ y.toNat < x.toNat := by omega
        simpa [h1, h2] using ih ys
      · right; simp [h]

theorem charListLe_cons {x y : Char} {xs ys : List Char} :
    charListLe (x :: xs) (y :: ys) = true ↔
      (x.toNat < y.toNat ∨ (x.toNat = y.toNat ∧ charListLe xs ys = true)) := by
  simp only [charListLe]
  by_cases h1 : x.toNat < y.toNat
  · simp [h1]
  · by_cases h2 : y.toNat < x.toNat
    · simp only [if_neg h1, if_pos h2]
      constructor
      · intro h; cases h
      · intro h
        rcases h with h | ⟨h, _⟩ <;> omega
    · have hx : x.toNat = y.toNat := by omega
      simp [h1, h2, hx]

theorem charListLe_trans {a b c : List Char} (hab : charListLe a b = true)
    (hbc : charListLe b c = true) : charListLe a c = true := by
  induction a generalizing b c with
  | nil => rfl
  | cons x xs ih =>
    cases b with
    | nil => simp [charListLe] at hab
    | cons y ys =>
      cases c with
      | nil => simp [charListLe] at hbc
      | cons z zs =>
        rw [charListLe_cons] at hab hbc ⊢
        rcases hab with hab | ⟨hab, hab2⟩
        · rcases hbc with hbc | ⟨hbc, _⟩
          · exact Or.inl (by omega)
          · exact Or.inl (by omega)
        · rcases hbc with hbc | ⟨hbc, hbc2⟩
          · exact Or.inl (by omega)
          · exact Or.inr ⟨by omega, ih hab2 hbc2⟩

instance : IsTotal Row date_ge :=
  ⟨fun a b => (charListLe_total b.date.data a.date.data).imp id id⟩

instance : IsTrans Row date_ge :=
  ⟨fun _ _ _ hab hbc => charListLe_trans hbc hab⟩

instance : IsTotal String str_le :=
  ⟨fun a b => charListLe_total a.data b.data⟩

instance : IsTrans String str_le :=
  ⟨fun _ _ _ hab hbc => charListLe_trans hab hbc⟩

/-!
## Properties of the dedup loop of `main`
-/

theorem keep_first_per_domain_mem {l : List Row} {seen : List String} {r : Row}
    (h : r ∈ keep_first_per_domain l seen) :
    r ∈ l ∧ r.sender_domain ≠ "" ∧ r.sender_domain ∉ seen := by
  induction l generalizing seen with
  | nil => simp [keep_first_per_domain] at h
  | cons p ps ih =>
    simp only [keep_first_per_domain] at h
    by_cases hc : p.sender_domain ≠ "" ∧ p.sender_domain ∉ seen
    · rw [if_pos hc] at h
      rcases List.mem_cons.mp h with hr | hr
      · subst hr; exact ⟨List.mem_cons_self _ _, hc.1, hc.2⟩
      · obtain ⟨h1, h2, h3⟩ := ih hr
        refine ⟨List.mem_cons_of_mem _ h1, h2, fun hmem => h3 ?_⟩
        exact List.mem_cons_of_mem _ hmem
    · rw [if_neg hc] at h
      obtain ⟨h1, h2, h3⟩ := ih h
      exact ⟨List.mem_cons_of_mem _ h1, h2, h3⟩

theorem keep_first_per_domain_sublist (l : List Row) (seen : List String) :
    (keep_first_per_domain l seen).Sublist l := by
  induction l generalizing seen with
  | nil => simp [keep_first_per_domain]
  | cons p ps ih =>
    simp only [keep_first_per_domain]
    by_cases hc : p.sender_domain ≠ "" ∧ p.sender_domain ∉ seen
    · rw [if_pos hc]; exact (ih _).cons₂ p
    · rw [if_neg hc]; exact (ih _).cons p

theorem keep_first_per_domain_pairwise_ne (l : List Row) (seen : List String) :
    (keep_first_per_domain l seen).Pairwise
      (fun a b => a.sender_domain ≠ b.sender_domain) := by
  induction l generalizing seen with
  | nil => simp [keep_first_per_domain]
  | cons p ps ih =>
    simp only [keep_first_per_domain]
    by_cases hc : p.sender_domain ≠ "" ∧ p.sender_domain ∉ seen
    · rw [if_pos hc]
      refine List.Pairwise.cons ?_ (ih _)
      intro b hb
      have := (keep_first_per_domain_mem hb).2.2
      intro he
      exact this (by rw [← he]; exact List.mem_cons_self _ _)
    · rw [if_neg hc]; exact ih _

theorem keep_first_per_domain_max {l : List Row}
    (hsorted : l.Pairwise date_ge) :
    ∀ {seen : List String} {r : Row}, r ∈ keep_first_per_domain l seen →
      ∀ x ∈ l, x.sender_domain = r.sender_domain → pyStrLe x.date r.date = true := by
  induction l with
  | nil => intro seen r h; simp [keep_first_per_domain] at h
  | cons p ps ih =>
    intro seen r hr x hx hdom
    have hpair := List.pairwise_cons.mp hsorted
    simp only [keep_first_per_domain] at hr
    by_cases hc : p.sender_domain ≠ "" ∧ p.sender_domain ∉ seen
    · rw [if_pos hc] at hr
      rcases List.mem_cons.mp hr with hr | hr
      · subst hr
        rcases List.mem_cons.mp hx with hx | hx
        · subst hx; exact charListLe_refl _
        · exact hpair.1 x hx
      · rcases List.mem_cons.mp hx with hx | hx
        · exfalso
          have := (keep_first_per_domain_mem hr).2.2
          subst hx
          exact this (by rw [← hdom]; exact List.mem_cons_self _ _)
        · exact ih hpair.2 hr x hx hdom
    · rw [if_neg hc] at hr
      rcases List.mem_cons.mp hx with hx | hx
      · exfalso
        obtain ⟨_, hne, hnotseen⟩ := keep_first_per_domain_mem hr
        subst hx
        rcases not_and_or.mp hc with hc1 | hc1
        · exact hne (by rw [← hdom]; exact not_not.mp hc1)
        · exact hnotseen (by rw [← hdom]; exact not_not.mp hc1)
      · exact ih hpair.2 hr x hx hdom

theorem keep_first_per_domain_id {l : List Row} {seen : List String}
    (hok : ∀ r ∈ l, r.sender_domain ≠ "" ∧ r.sender_domain ∉ seen)
    (hpair : l.Pairwise (fun a b => a.sender_domain ≠ b.sender_domain)) :
    keep_first_per_domain l seen = l := by
  induction l generalizing seen with
  | nil => rfl
  | cons p ps ih =>
    have hp := hok p (List.mem_cons_self _ _)
    simp only [keep_first_per_domain, if_pos hp]
    congr 1
    have hpair' := List.pairwise_cons.mp hpair
    refine ih ?_ hpair'.2
    intro r hr
    obtain ⟨h1, h2⟩ := hok r (List.mem_cons_of_mem _ hr)
    refine ⟨h1, ?_⟩
    intro hmem
    rcases List.mem_cons.mp hmem with hmem | hmem
    · exact (hpair'.1 r hr) hmem.symm
    · exact h2 hmem

theorem pairwise_ne_filter_length {l : List Row}
    (hpair : l.Pairwise (fun a b => a.sender_domain ≠ b.sender_domain))
    (d : String) : (l.filter (fun r => r.sender_domain = d)).length ≤ 1 := by
  induction l with
  | nil => simp
  | cons p ps ih =>
    have hpair' := List.pairwise_cons.mp hpair
    by_cases hd : p.sender_domain = d
    · have hrest : ps.filter (fun r => r.sender_domain = d) = [] := by
        apply List.filter_eq_nil_iff.mpr
        intro r hr
        simp only [decide_eq_true_eq]
        intro hrd
        exact (hpair'.1 r hr) (by rw [hd, hrd])
      simp [List.filter_cons, hd, hrest]
    · simp only [List.filter_cons, decide_eq_true_eq, hd, if_false, ite_false]
      simpa using ih hpair'.2

/-!
## Shape of the rows `parse_mbox_file` produces
-/

theorem parse_mbox_file_mem {cfg : Config} {msgs : List RawMsg} {rs : List Row}
    (hp : parse_mbox_file cfg msgs = .ok rs) :
    ∀ r ∈ rs, ∃ m b, m ∈ msgs ∧ keep_message cfg m = true ∧
      get_body_text m = .ok b ∧ r = mk_row m b := by
  induction msgs generalizing rs with
  | nil =>
    simp only [parse_mbox_file, Except.ok.injEq] at hp
    subst hp
    intro r hr
    simp at hr
  | cons m ms ih =>
    simp only [parse_mbox_file] at hp
    by_cases hk : keep_message cfg m = true
    · rw [if_pos hk] at hp
      cases hbody : get_body_text m with
      | error e => rw [hbody] at hp; cases hp
      | ok b =>
        rw [hbody] at hp
        cases hrest : parse_mbox_file cfg ms with
        | error e => rw [hrest] at hp; cases hp
        | ok rs' =>
          rw [hrest] at hp
          simp only [Except.map, Except.ok.injEq] at hp
          subst hp
          intro r hr
          rcases List.mem_cons.mp hr with hr | hr
          · exact ⟨m, b, List.mem_cons_self _ _, hk, hbody, hr⟩
          · obtain ⟨m', b', hm', hk', hb', hr'⟩ := ih hrest r hr
            exact ⟨m', b', List.mem_cons_of_mem _ hm', hk', hb', hr'⟩
    · rw [if_neg hk] at hp
      intro r hr
      obtain ⟨m', b', hm', hk', hb', hr'⟩ := ih hp r hr
      exact ⟨m', b', List.mem_cons_of_mem _ hm', hk', hb', hr'⟩

/-!
## `_sender_domain` versus the spec's wording
-/

theorem splitFirst_of_mem {sep : Char} :
    ∀ {l : List Char}, sep ∈ l →
      ∃ a, splitFirst sep l = some (a, (l.dropWhile (fun c => c ≠ sep)).drop 1) := by
  intro l hl
  induction l with
  | nil => cases hl
  | cons c rest ih =>
    by_cases hc : c = sep
    · subst hc
      refine ⟨[], ?_⟩
      simp [splitFirst, List.dropWhile]
    · have hrest : sep ∈ rest := by
        rcases List.mem_cons.mp hl with h | h
        · exact absurd h.symm hc
        · exact h
      obtain ⟨a, ha⟩ := ih hrest
      refine ⟨c :: a, ?_⟩
      have hdw : (List.dropWhile (fun x => decide (x ≠ sep)) (c :: rest)) =
          List.dropWhile (fun x => decide (x ≠ sep)) rest := by
        simp [List.dropWhile, hc]
      simp only [splitFirst, if_neg hc, ha, hdw]
      simp

theorem splitFirst_of_not_mem {sep : Char} :
    ∀ {l : List Char}, sep ∉ l → splitFirst sep l = none := by
  intro l hl
  induction l with
  | nil => rfl
  | cons c rest ih =>
    have hc : ¬ c = sep := fun h => hl (h ▸ List.mem_cons_self _ _)
    have hrest : sep ∉ rest := fun h => hl (List.mem_cons_of_mem _ h)
    simp [splitFirst, if_neg hc, ih hrest]

/-!
## Validity of `isoformat` output
-/

theorem digitChar_isDigit {n : Nat} (h : n < 10) :
    (Nat.digitChar n).isDigit = true := by
  interval_cases n <;> decide

theorem validTzTail_tzChars (t : Option Int)
    (ht : ∀ o, t = some o → o.natAbs ≤ 1439) :
    validTzTail (tzChars t) = true := by
  cases t with
  | none => rfl
  | some o =>
    have hb : o.natAbs ≤ 1439 := ht o rfl
    have h1 : o.natAbs / 60 / 10 < 10 := by omega
    have h2 : o.natAbs / 60 % 10 < 10 := by omega
    have h3 : o.natAbs % 60 / 10 < 10 := by omega
    have h4 : o.natAbs % 60 % 10 < 10 := by omega
    by_cases hs : o < 0 <;>
      simp [tzChars, hs, pad2, validTzTail, digitChar_isDigit,
        h1, h2, h3, h4]

theorem isoformat_valid (dt : PyDateTime) :
    isValidISO8601 (isoformat dt) = true := by
  obtain ⟨hy1, hy2⟩ := dt.hYear
  obtain ⟨hmo1, hmo2⟩ := dt.hMonth
  obtain ⟨hd1, hd2⟩ := dt.hDay
  have hh := dt.hHour
  have hmi := dt.hMinute
  have hse := dt.hSecond
  have q1 : dt.year / 1000 < 10 := by omega
  have q2 : dt.year / 100 % 10 < 10 := by omega
  have q3 : dt.year / 10 % 10 < 10 := by omega
  have q4 : dt.year % 10 < 10 := by omega
  have q5 : dt.month / 10 < 10 := by omega
  have q6 : dt.month % 10 < 10 := by omega
  have q7 : dt.day / 10 < 10 := by omega
  have q8 : dt.day % 10 < 10 := by omega
  have q9 : dt.hour / 10 < 10 := by omega
  have q10 : dt.hour % 10 < 10 := by omega
  have q11 : dt.minute / 10 < 10 := by omega
  have q12 : dt.minute % 10 < 10 := by omega
  have q13 : dt.second / 10 < 10 := by omega
  have q14 : dt.second % 10 < 10 := by omega
  simp only [isoformat, pad4, pad2, isValidISO8601, List.cons_append,
    List.nil_append]
  simp [digitChar_isDigit, q1, q2, q3, q4, q5, q6, q7, q8, q9, q10,
    q11, q12, q13, q14, validTzTail_tzChars dt.tz dt.hTz]

/-!
## Attachment parts contribute nothing to the body walk
-/

theorem walk_chunks_filter_attachment (parts : List MimePart) :
    walk_chunks (parts.filter
      (fun p => !(strContains (pyLower p.contentDisposition) "attachment"))) =
    walk_chunks parts := by
  induction parts with
  | nil => rfl
  | cons p ps ih =>
    by_cases ha : strContains (pyLower p.contentDisposition) "attachment" = true
    · have hfilter : (p :: ps).filter
          (fun p => !(strContains (pyLower p.contentDisposition) "attachment")) =
          ps.filter
            (fun p => !(strContains (pyLower p.contentDisposition) "attachment")) := by
        simp [List.filter_cons, ha]
      have hchunk : part_chunks p = .ok [] := by
        simp [part_chunks, ha]
      rw [hfilter, ih]
      simp only [walk_chunks, hchunk]
      cases walk_chunks ps <;> simp [Except.map]
    · have hfilter : (p :: ps).filter
          (fun p => !(strContains (pyLower p.contentDisposition) "attachment")) =
          p :: ps.filter
            (fun p => !(strContains (pyLower p.contentDisposition) "attachment")) := by
        simp [List.filter_cons, ha]
      rw [hfilter]
      simp only [walk_chunks, ih]

/-!
## The ignore-rule chain as a disjunction, and its monotonicity
-/

theorem keep_message_false_iff (cfg : Config) (m : RawMsg) :
    keep_message cfg m = false ↔
      (is_in_spam_or_trash m = true ∨
       cfg.ignoreDomains.contains (sender_domain (from_email m)) = true ∨
       cfg.ignoreSenders.contains (from_email m) = true ∨
       subject_matches_ignores cfg (decoded_subject m) = true) := by
  unfold keep_message
  split_ifs with h1 h2 h3 h4 <;> simp_all

theorem process_message_none_iff (cfg : Config) (m : RawMsg) :
    keep_message cfg m = false ↔ process_message cfg m = .ok none := by
  unfold process_message
  by_cases hk : keep_message cfg m
  · rw [if_pos hk]
    simp only [hk]
    constructor
    · intro h; cases h
    · intro h
      exfalso
      cases hb : get_body_text m with
      | error e => rw [hb] at h; cases h
      | ok b => rw [hb] at h; cases h
  · rw [if_neg hk]
    simp only [Bool.not_eq_true] at hk
    simp [hk]

theorem subject_matches_ignores_mono {c c' : Config} (subj : String)
    (hph : c.subjectPhraseIgnore = c'.subjectPhraseIgnore)
    (hkw : c.subjectKeywordsIgnore ⊆ c'.subjectKeywordsIgnore)
    (h : subject_matches_ignores c subj = true) :
    subject_matches_ignores c' subj = true := by
  unfold subject_matches_ignores at h ⊢
  rw [← hph]
  by_cases hp : strContains (pyLower subj) c.subjectPhraseIgnore = true
  · rw [if_pos hp]
  · rw [if_neg hp] at h ⊢
    obtain ⟨w, hw, hcw⟩ := List.any_eq_true.mp h
    exact List.any_eq_true.mpr ⟨w, hkw hw, hcw⟩

/-!
## The recency cutoff is dead configuration
-/

theorem parse_mbox_file_cutoff_irrelevant (cfg : Config) (t1 t2 : PyDateTime)
    (msgs : List RawMsg) :
    parse_mbox_file { cfg with cutoffUtc := t1 } msgs =
      parse_mbox_file { cfg with cutoffUtc := t2 } msgs := by
  induction msgs with
  | nil => rfl
  | cons m ms ih =>
    simp only [parse_mbox_file]
    have hk : keep_message { cfg with cutoffUtc := t1 } m =
        keep_message { cfg with cutoffUtc := t2 } m := rfl
    rw [hk, ih]

/-!
## Claims
-/

/-- Claim C1: for every input row list, the conversation-reduction step
(stable sort by timestamp descending, then keep the first row per domain)
outputs at most one row per distinct non-empty `sender_domain`; every kept
row comes from the input and has a non-empty domain (rows with empty
`sender_domain` are dropped); and the kept row of each domain has the
lexicographically maximum timestamp among all input rows sharing that
domain. -/
theorem C1_conversation_reduction (rows : List Row) :
    (∀ r ∈ reduce_conversations rows, r.sender_domain ≠ "" ∧ r ∈ rows) ∧
    (∀ d : String,
      ((reduce_conversations rows).filter (fun r => r.sender_domain = d)).length ≤ 1) ∧
    (∀ r ∈ reduce_conversations rows, ∀ x ∈ rows,
      x.sender_domain = r.sender_domain → pyStrLe x.date r.date = true) := by
  have hperm := List.perm_insertionSort date_ge rows
  have hsorted : (sort_by_date rows).Pairwise date_ge :=
    List.sorted_insertionSort date_ge rows
  refine ⟨?_, ?_, ?_⟩
  · intro r hr
    obtain ⟨h1, h2, _⟩ := keep_first_per_domain_mem hr
    exact ⟨h2, hperm.mem_iff.mp h1⟩
  · intro d
    exact pairwise_ne_filter_length (keep_first_per_domain_pairwise_ne _ _) d
  · intro r hr x hx hdom
    exact keep_first_per_domain_max hsorted hr x (hperm.mem_iff.mpr hx) hdom

/-- Witness for C1 at a concrete input: from `rowsEx`, the reducer keeps
`rowNew` for domain x.example, and the other row of that domain has a
timestamp no larger. -/
theorem C1_witness : pyStrLe rowOld.date rowNew.date = true :=
  (C1_conversation_reduction rowsEx).2.2 rowNew (by decide) rowOld (by decide)
    (by decide)

/-- Claim C7: the conversation-reduction step is idempotent: applying it to
its own output returns that output unchanged, element for element. -/
theorem C7_reduce_idempotent (rows : List Row) :
    reduce_conversations (reduce_conversations rows) = reduce_conversations rows := by
  have hsorted : (sort_by_date rows).Pairwise date_ge :=
    List.sorted_insertionSort date_ge rows
  have hsub := keep_first_per_domain_sublist (sort_by_date rows) []
  have hsorted2 : (reduce_conversations rows).Pairwise date_ge :=
    List.Pairwise.sublist hsub hsorted
  have hsort2 : sort_by_date (reduce_conversations rows) = reduce_conversations rows :=
    List.Sorted.insertionSort_eq hsorted2
  have hok : ∀ r ∈ reduce_conversations rows,
      r.sender_domain ≠ "" ∧ r.sender_domain ∉ ([] : List String) :=
    fun r hr => ⟨(keep_first_per_domain_mem hr).2.1, by simp⟩
  have hpair := keep_first_per_domain_pairwise_ne (sort_by_date rows) []
  calc reduce_conversations (reduce_conversations rows)
      = keep_first_per_domain (sort_by_date (reduce_conversations rows)) [] := rfl
    _ = keep_first_per_domain (reduce_conversations rows) [] := by rw [hsort2]
    _ = reduce_conversations rows := keep_first_per_domain_id hok hpair

/-- Claim C2: for every configuration and raw message, the ingestion loop
excludes the message (produces no row) exactly when one of the four rules
fires: a spam/trash label value, the sender domain in the domain blocklist,
the lower-cased sender email in the sender blocklist, or the lower-cased
decoded subject containing the ignore phrase or an ignore keyword.  At the
concrete subject "Maintenance request WO_ID 123", the ignore phrase does not
occur but a keyword does, so the message is excluded by the subject-keyword
rule. -/
theorem C2_exclusion_rules :
    (∀ (cfg : Config) (m : RawMsg),
      (keep_message cfg m = false ↔
        (is_in_spam_or_trash m = true ∨
         cfg.ignoreDomains.contains (sender_domain (from_email m)) = true ∨
         cfg.ignoreSenders.contains (from_email m) = true ∨
         subject_matches_ignores cfg (decoded_subject m) = true)) ∧
      (keep_message cfg m = false ↔ process_message cfg m = .ok none)) ∧
    strContains (pyLower "Maintenance request WO_ID 123") SUBJECT_PHRASE_IGNORE
      = false ∧
    SUBJECT_KEYWORDS_IGNORE.any
      (fun w => strContains (pyLower "Maintenance request WO_ID 123") w) = true ∧
    subject_matches_ignores shippedConfig "Maintenance request WO_ID 123" = true :=
  ⟨fun cfg m => ⟨keep_message_false_iff cfg m, process_message_none_iff cfg m⟩,
    by decide, by decide, by decide⟩

/-- Witness for C2 at a concrete input: a spam-labeled message is excluded,
through the first disjunct of the rule equivalence. -/
theorem C2_witness : keep_message shippedConfig msgSpam = false :=
  ((C2_exclusion_rules.1 shippedConfig msgSpam).1).mpr (Or.inl (by decide))

/-- Claim C3, refuting evaluation (code bug): body extraction can raise.
For a multipart message whose `text/html` part fails both `get_content()`
and the unguarded fallback `get_payload(decode=True).decode(...)`, the
exception propagates out of `_get_body_text` (modelled as `Except.error`),
whereas the same double failure on a `text/plain` part is swallowed by the
inner try/except and just contributes nothing. -/
theorem C3_html_decode_failure_raises :
    get_body_text msgHtmlBad = .error () ∧ get_body_text msgPlainBad = .ok "" :=
  ⟨rfl, rfl⟩

/-- Claim C4: `_sender_domain` equals the spec's description — the substring
of the (already lower-cased) sender email after the first at sign, lower-cased,
and the empty string when no at sign occurs — and every row produced by
`parse_mbox_file` has `sender_domain` equal to that derivation applied to its
own `email` field. -/
theorem C4_sender_domain :
    (∀ email : String, sender_domain email = sender_domain_spec email) ∧
    (∀ email : String, email.data.contains '@' = false → sender_domain email = "") ∧
    (∀ (cfg : Config) (msgs : List RawMsg) (rs : List Row) (r : Row),
      parse_mbox_file cfg msgs = .ok rs → r ∈ rs →
        r.sender_domain = sender_domain r.email) := by
  refine ⟨?_, ?_, ?_⟩
  · intro email
    unfold sender_domain sender_domain_spec pySplit1
    by_cases h : email.data.contains '@' = true
    · have hmem : '@' ∈ email.data := List.elem_iff.mp h
      obtain ⟨a, ha⟩ := splitFirst_of_mem hmem
      rw [if_pos h, if_pos h, ha]
      rfl
    · rw [if_neg (by simp_all), if_neg (by simp_all)]
  · intro email h
    unfold sender_domain
    rw [if_neg (by simp_all)]
  · intro cfg msgs rs r hp hr
    obtain ⟨m, b, _, _, _, hr'⟩ := parse_mbox_file_mem hp r hr
    subst hr'
    rfl

/-- Witness for C4 at a concrete input: the one row `parse_mbox_file`
produces from `[msgBase]` satisfies the domain/email consistency. -/
theorem C4_witness :
    (mk_row msgBase "Hello").sender_domain =
      sender_domain ((mk_row msgBase "Hello").email) :=
  C4_sender_domain.2.2 shippedConfig [msgBase] [mk_row msgBase "Hello"]
    (mk_row msgBase "Hello") rfl (List.mem_singleton.mpr rfl)

/-- Claim C5: for every message, the timestamp is empty when the Date header
is absent or its parse fails, equals `isoformat` of the parsed datetime
otherwise, and is therefore always either a syntactically valid ISO-8601
string or empty; the computation is a total function (never raises). -/
theorem C5_timestamp (m : RawMsg) :
    (message_datetime m = "" ∨ isValidISO8601 (message_datetime m) = true) ∧
    (m.dateHeader = "" → message_datetime m = "") ∧
    (m.parsedDate = none → message_datetime m = "") ∧
    (∀ dt, m.dateHeader ≠ "" → m.parsedDate = some dt →
      message_datetime m = isoformat dt) := by
  refine ⟨?_, ?_, ?_, ?_⟩
  · unfold message_datetime
    by_cases h : m.dateHeader = ""
    · left; rw [if_pos h]
    · rw [if_neg h]
      cases hd : m.parsedDate with
      | none => left; rfl
      | some dt => right; exact isoformat_valid dt
  · intro h
    simp [message_datetime, h]
  · intro h
    by_cases h2 : m.dateHeader = "" <;> simp [message_datetime, h, h2]
  · intro dt h1 h2
    simp [message_datetime, h1, h2]

/-- Witness for C5 at a concrete input: `msgBase` has a parseable Date
header; its timestamp is the isoformat rendering and passes the ISO-8601
checker. -/
theorem C5_witness :
    message_datetime msgBase = isoformat dtSample ∧
    isValidISO8601 (message_datetime msgBase) = true :=
  ⟨(C5_timestamp msgBase).2.2.2 dtSample (by decide) rfl,
   (C5_timestamp msgBase).1.resolve_left (by decide)⟩

/-- Claim C6: exclusion is monotonic in the configuration: enlarging the
domain blocklist, the sender blocklist or the subject keyword set (phrase
unchanged) never turns an excluded message into an included one. -/
theorem C6_exclusion_monotonic (c c' : Config) (m : RawMsg)
    (hdom : c.ignoreDomains ⊆ c'.ignoreDomains)
    (hsend : c.ignoreSenders ⊆ c'.ignoreSenders)
    (hkw : c.subjectKeywordsIgnore ⊆ c'.subjectKeywordsIgnore)
    (hph : c.subjectPhraseIgnore = c'.subjectPhraseIgnore)
    (hex : keep_message c m = false) : keep_message c' m = false := by
  rw [keep_message_false_iff] at hex ⊢
  rcases hex with h | h | h | h
  · exact Or.inl h
  · exact Or.inr (Or.inl (List.elem_iff.mpr (hdom (List.elem_iff.mp h))))
  · exact Or.inr (Or.inr (Or.inl (List.elem_iff.mpr (hsend (List.elem_iff.mp h)))))
  · exact Or.inr (Or.inr (Or.inr (subject_matches_ignores_mono _ hph hkw h)))

/-- Witness for C6 at a concrete input: the spam-labeled message is excluded
under the shipped configuration and stays excluded after adding an entry to
each blocklist set. -/
theorem C6_witness : keep_message configBigger msgSpam = false :=
  C6_exclusion_monotonic shippedConfig configBigger msgSpam (by decide)
    (by decide) (by decide) rfl (by decide)

/-- Claim C8, counterexample: the claim's "attachment content never appears
in `body_text` for any message" is false.  The single-part branch of
`_get_body_text` (lines 170-177) never reads Content-Disposition, so a
non-multipart message flagged `Content-Disposition: attachment` has its
payload content placed in `body_text`. -/
theorem C8_single_attachment_not_skipped :
    get_body_text msgSingleAttach = .ok "SECRET" := rfl

/-- Claim C8 as amended: for multipart messages, body extraction skips every
part whose Content-Disposition marks it as an attachment.  Concretely, the
multipart message with one `text/plain` part "Hello" and one attachment part
yields exactly "Hello"; in general, deleting all attachment-flagged parts
from the walk leaves the chunk accumulation unchanged, hence the extracted
body of every multipart message is unchanged, so attachment content never
reaches `body_text` of a multipart message.  (The single-part branch ignores
the disposition header; see the counterexample.) -/
theorem C8_attachments_skipped :
    get_body_text msgBase = .ok "Hello" ∧
    (∀ parts : List MimePart,
      walk_chunks (parts.filter
        (fun p => !(strContains (pyLower p.contentDisposition) "attachment"))) =
      walk_chunks parts) ∧
    (∀ (m : RawMsg) (parts : List MimePart), m.body = .multi parts →
      get_body_text m =
        get_body_text { m with body := .multi (parts.filter
          (fun p => !(strContains (pyLower p.contentDisposition) "attachment"))) }) := by
  refine ⟨rfl, walk_chunks_filter_attachment, ?_⟩
  intro m parts hm
  calc get_body_text m
      = (walk_chunks parts).map
          (fun cs => String.intercalate "\n\n" (cs.filter (· ≠ ""))) := by
        unfold get_body_text; rw [hm]
    _ = (walk_chunks (parts.filter
          (fun p => !(strContains (pyLower p.contentDisposition) "attachment")))).map
          (fun cs => String.intercalate "\n\n" (cs.filter (· ≠ ""))) := by
        rw [walk_chunks_filter_attachment]
    _ = get_body_text { m with body := .multi (parts.filter
          (fun p => !(strContains (pyLower p.contentDisposition) "attachment"))) } := rfl

/-- Witness for C8 at a concrete input: removing the attachment part from
`msgBase`'s walk leaves its extracted body unchanged. -/
theorem C8_witness :
    get_body_text msgBase =
      get_body_text { msgBase with
        body := .multi ([partContainer, partPlainHello, partAttachPdf].filter
          (fun p => !(strContains (pyLower p.contentDisposition) "attachment"))) } :=
  C8_attachments_skipped.2.2 msgBase [partContainer, partPlainHello, partAttachPdf] rfl

/-- Claim C9: the configured recency cutoff is never applied as a filter:
with all other configuration equal, any two cutoff instants give the same
retained row list and the same reduced row list on every archive. -/
theorem C9_cutoff_never_applied (cfg : Config) (t1 t2 : PyDateTime)
    (msgs : List RawMsg) :
    parse_mbox_file { cfg with cutoffUtc := t1 } msgs =
      parse_mbox_file { cfg with cutoffUtc := t2 } msgs ∧
    (parse_mbox_file { cfg with cutoffUtc := t1 } msgs).map reduce_conversations =
      (parse_mbox_file { cfg with cutoffUtc := t2 } msgs).map reduce_conversations := by
  have h := parse_mbox_file_cutoff_irrelevant cfg t1 t2 msgs
  exact ⟨h, by rw [h]⟩

/-- Claim C10: a message whose From header yields no parseable address gets
`sender_email = ""` and `sender_domain = ""`; under the shipped configuration
neither blocklist contains the empty string, so the domain and sender rules
cannot exclude it, and if no other rule matches it survives ingestion with
those empty fields. -/
theorem C10_empty_sender_survives (m : RawMsg) (hemail : m.parseEmail = "") :
    from_email m = "" ∧
    sender_domain (from_email m) = "" ∧
    shippedConfig.ignoreDomains.contains (sender_domain (from_email m)) = false ∧
    shippedConfig.ignoreSenders.contains (from_email m) = false ∧
    (is_in_spam_or_trash m = false →
      subject_matches_ignores shippedConfig (decoded_subject m) = false →
      keep_message shippedConfig m = true ∧
      (∀ b, get_body_text m = .ok b →
        process_message shippedConfig m = .ok (some (mk_row m b)) ∧
        (mk_row m b).email = "" ∧ (mk_row m b).sender_domain = "")) := by
  have hfe : from_email m = "" := by rw [from_email, hemail]; rfl
  refine ⟨hfe, ?_, ?_, ?_, ?_⟩
  · rw [hfe]; rfl
  · rw [hfe]; decide
  · rw [hfe]; decide
  · intro hspam hsubj
    have hk : keep_message shippedConfig m = true := by
      unfold keep_message
      rw [hfe, hspam, hsubj]
      simp
      decide
    refine ⟨hk, ?_⟩
    intro b hb
    refine ⟨?_, ?_, ?_⟩
    · simp [process_message, hk, hb, Except.map]
    · simp [mk_row, hfe]
    · simp only [mk_row]
      rw [hfe]
      rfl

/-- Witness for C10 at a concrete input: the From-less message survives and
produces a row with empty email and empty domain fields. -/
theorem C10_witness :
    keep_message shippedConfig msgNoFrom = true ∧
    process_message shippedConfig msgNoFrom = .ok (some (mk_row msgNoFrom "Hello")) := by
  have h := (C10_empty_sender_survives msgNoFrom rfl).2.2.2.2 (by decide) (by decide)
  exact ⟨h.1, (h.2 "Hello" rfl).1⟩
